import Mathlib

/-!
Verification development for the BRK_CNC_ToolManager reconciliation code
(server/index.js and the Tool entity).  JavaScript strings are embedded as
`List Char`, JS numbers as `Int` (or `ℚ` where fractional values occur, with
exact arithmetic: the literal 0.3 is modelled as 3/10), nullable values as
`Option`, and JS objects used as dictionaries as association lists that keep
first-insertion order.
-/

namespace ToolManager

/-- Decidable list-of-chars matching at the front, used to embed
JavaScript's startsWith / substring search primitives. -/
def listIsPre : List Char → List Char → Bool
  | [], _ => true
  | _ :: _, [] => false
  | a :: as, b :: bs => a = b && listIsPre as bs

/-- Embeds JavaScript `s.includes(pat)`: `pat` occurs contiguously in `s`. -/
def containsSub (s pat : List Char) : Bool :=
  match s with
  | [] => pat.isEmpty
  | _ :: rest => listIsPre pat s || containsSub rest pat

/-- Embeds JavaScript `s.replace(pat, '')` for a non-empty literal `pat`:
removes the first occurrence of `pat`, leaves `s` unchanged when absent. -/
def replaceFirst (pat : List Char) : List Char → List Char
  | [] => []
  | c :: cs =>
    if listIsPre pat (c :: cs) then (c :: cs).drop pat.length
    else c :: replaceFirst pat cs

/-- Embeds JavaScript `s.split('_')[0]`: the part before the first
underscore (server/index.js line 259 and line 285). -/
def baseOf (s : List Char) : List Char := s.takeWhile (fun c => c != '_')

/-- The manufacturer tag `RT-` stripped by `getImageUrl`. -/
def rtTag : List Char := ['R', 'T', '-']

/-- Embeds `if (cleaned.startsWith('X')) cleaned = cleaned.substring(1)`
(server/index.js lines 288-290). -/
def stripLeadX (s : List Char) : List Char :=
  match s with
  | [] => []
  | c :: rest => if c = 'X' then rest else c :: rest

/-- Family-code extraction inside `getImageUrl` (server/index.js lines
283-301): strip the first `RT-`, truncate at the first `_`, strip one
leading `X`, then keep all but the last 3 characters when at least 6
remain, else the first 4. -/
def familyCode (toolCode : List Char) : List Char :=
  let cleaned := stripLeadX (baseOf (replaceFirst rtTag toolCode))
  if 6 ≤ cleaned.length then cleaned.take (cleaned.length - 3)
  else cleaned.take 4

/-- URL head used by `getImageUrl`. -/
def imgHead : List Char := ( "/api/images/tools/").toList

/-- URL tail used by `getImageUrl`. -/
def imgTail : List Char := ( ".png").toList

/-- `getImageUrl` (server/index.js lines 280-304): `null` for a falsy tool
code, otherwise the image URL built from the family code. -/
def getImageUrl (toolCode : Option (List Char)) : Option (List Char) :=
  match toolCode with
  | none => none
  | some code =>
    if code = [] then none
    else some (imgHead ++ familyCode code ++ imgTail)

/-- The category enumeration used by the dashboard transform. -/
inductive Cat
  | ECUT
  | MFC
  | XF
  | XFEED
  | OTHER
deriving DecidableEq

/-- Category classification (server/index.js lines 312-317): an if-chain of
`code.includes(...)` tests, defaulting to OTHER. -/
def categoryOf (code : List Char) : Cat :=
  if containsSub code ( "8400").toList || containsSub code ( "8410").toList
      || containsSub code ( "8420").toList then Cat.ECUT
  else if containsSub code ( "8201").toList || containsSub code ( "8211").toList
      || containsSub code ( "8221").toList then Cat.MFC
  else if containsSub code ( "1525").toList || containsSub code ( "8521").toList then Cat.XF
  else if containsSub code ( "7620").toList || containsSub code ( "7624").toList then Cat.XFEED
  else Cat.OTHER

/-- The ordered family-code-substring → category table the specification
describes: each entry of the if-chain, in textual order. -/
def catTable : List (List Char × Cat) :=
  [(( "8400").toList, Cat.ECUT), (( "8410").toList, Cat.ECUT), (( "8420").toList, Cat.ECUT),
   (( "8201").toList, Cat.MFC), (( "8211").toList, Cat.MFC), (( "8221").toList, Cat.MFC),
   (( "1525").toList, Cat.XF), (( "8521").toList, Cat.XF),
   (( "7620").toList, Cat.XFEED), (( "7624").toList, Cat.XFEED)]

/-- First-match-wins lookup over an ordered substring table (the
specification's reading of the classification). -/
def firstMatch (code : List Char) : List (List Char × Cat) → Cat
  | [] => Cat.OTHER
  | (pat, cat) :: rest => if containsSub code pat then cat else firstMatch code rest

/-- One entry of `matrix-tool-definitions.json` as indexed into
`baseDiameters` (server/index.js lines 230-238); every field may be absent. -/
structure DefEntry where
  diameter : Option ℚ
  toolLife : Option ℚ
  codePrefix : Option (List Char)
deriving DecidableEq

/-- The `{diameter, toolLife, codePrefix}` record returned by `getToolData`. -/
structure ToolData where
  diameter : ℚ
  toolLife : ℚ
  codePrefix : List Char
deriving DecidableEq

/-- JavaScript `x || 0` on a possibly-absent number (0 and absent are both
falsy, so either yields 0). -/
def jsNumOr0 (o : Option ℚ) : ℚ := o.getD 0

/-- JavaScript `x || ''` on a possibly-absent string. -/
def jsStrOr (o : Option (List Char)) : List Char := o.getD []

/-- Key lookup in the `baseDiameters` dictionary (first matching key). -/
def lookupDef : List (List Char × DefEntry) → List Char → Option DefEntry
  | [], _ => none
  | (k, e) :: rest, code => if k = code then some e else lookupDef rest code

/-- The field coalescing `baseDiameters[c].diameter || 0` etc.
(server/index.js lines 251-254 and 261-264). -/
def coalesceEntry (e : DefEntry) : ToolData :=
  ⟨jsNumOr0 e.diameter, jsNumOr0 e.toolLife, jsStrOr e.codePrefix⟩

/-- `getToolData` (server/index.js lines 246-269): neutral record for falsy
input, else exact key lookup, else lookup of the code truncated at the
first underscore, else neutral. -/
def getToolData (defs : List (List Char × DefEntry)) (toolCode : Option (List Char)) :
    ToolData :=
  match toolCode with
  | none => ⟨0, 0, []⟩
  | some code =>
    if code = [] then ⟨0, 0, []⟩
    else
      match lookupDef defs code with
      | some e => coalesceEntry e
      | none =>
        match lookupDef defs (baseOf code) with
        | some e => coalesceEntry e
        | none => ⟨0, 0, []⟩

/-- One row of the Excel inventory snapshot (`toolInventory`); the JS reads
`tool.toolCode || ''` and `tool.quantity || 0`, which are the identity on
string- and number-valued fields. -/
structure InvRow where
  toolCode : List Char
  quantity : Int
deriving DecidableEq

/-- `Math.max(3, Math.floor(quantity * 0.3))` (server/index.js line 309),
with 0.3 modelled exactly as 3/10. -/
def warnThresh (quantity : Int) : Int :=
  max 3 (Int.floor ((quantity : ℚ) * (3 / 10)))

/-- A dashboard matrix tool as built by the transform at server/index.js
lines 307-334. -/
structure MTool where
  toolId : List Char
  diameter : ℚ
  toolLife : ℚ
  toolType : Cat
  category : Cat
  codePrefix : List Char
  setupTime : Int
  inPool : Int
  warningThreshold : Int
  imageUrl : Option (List Char)
deriving DecidableEq

/-- The per-row transform of `filteredTools.map(tool => ...)`
(server/index.js lines 307-334). -/
def toMatrixTool (defs : List (List Char × DefEntry)) (row : InvRow) : MTool :=
  { toolId := row.toolCode
    diameter := (getToolData defs (some row.toolCode)).diameter
    toolLife := (getToolData defs (some row.toolCode)).toolLife
    toolType := categoryOf row.toolCode
    category := categoryOf row.toolCode
    codePrefix := (getToolData defs (some row.toolCode)).codePrefix
    setupTime := 0
    inPool := row.quantity
    warningThreshold := warnThresh row.quantity
    imageUrl := getImageUrl (some row.toolCode) }

/-- The built-in matrix code pattern list (server/index.js line 217), used
when no definitions file overrides it. -/
def defaultMatrixCodePatterns : List (List Char) :=
  [( "8400").toList, ( "8410").toList, ( "8420").toList, ( "8201").toList, ( "8211").toList,
   ( "8221").toList, ( "1525").toList, ( "8521").toList, ( "7620").toList, ( "7624").toList]

/-- `filteredTools` then `matrixTools` (server/index.js lines 272-334):
keep the inventory rows whose code contains some matrix pattern, in order,
and map each to its dashboard record. -/
def matrixTools (defs : List (List Char × DefEntry)) (pats : List (List Char))
    (inv : List InvRow) : List MTool :=
  (inv.filter (fun r => pats.any (fun p => containsSub r.toolCode p))).map (toMatrixTool defs)

/-- A processed usage record as read from `dataManager.getAllTools`
(server/index.js lines 402-403): an id plus possibly-absent minute fields. -/
structure UTool where
  id : List Char
  usageMinutes : Option Int
  runningTime : Option Int
deriving DecidableEq

/-- JavaScript `a || b` on a possibly-absent number (absent and 0 are
falsy). -/
def jsIntOr (a : Option Int) (b : Int) : Int :=
  match a with
  | some m => if m = 0 then b else m
  | none => b

/-- `tool.usageMinutes || tool.runningTime || 0` (server/index.js line 403). -/
def effMinutes (t : UTool) : Int := jsIntOr t.usageMinutes (jsIntOr t.runningTime 0)

/-- The maximal run of decimal digits at the front of the list. -/
def digitRun (s : List Char) : List Char := s.takeWhile Char.isDigit

/-- First match of the regular expression `P(\d{4,5})`, returning capture
group 1 (server/index.js line 407): scan for a `P` followed by at least 4
digits; the greedy quantifier takes 5 digits when available. -/
def pMatch : List Char → Option (List Char)
  | [] => none
  | c :: cs =>
    if c = 'P' ∧ 4 ≤ (digitRun cs).length then some ((digitRun cs).take 5)
    else pMatch cs

/-- Attempt of `RT-([X]?)(\d{4,5})` just after a literal `RT-`: the
optional `X` is consumed greedily, then at least 4 digits must follow
(5 taken when available); with fewer digits the position fails, because
backtracking the `X` leaves a non-digit under `\d`. -/
def rtTry (rest : List Char) : Option (List Char) :=
  match rest with
  | 'X' :: cs =>
    if 4 ≤ (digitRun cs).length then some ((digitRun cs).take 5) else none
  | _ =>
    if 4 ≤ (digitRun rest).length then some ((digitRun rest).take 5) else none

/-- First match of `RT-([X]?)(\d{4,5})`, returning capture group 2
(server/index.js line 422): the leftmost `RT-` whose continuation
matches decides. -/
def rtMatch : List Char → Option (List Char)
  | [] => none
  | c :: cs =>
    if listIsPre rtTag (c :: cs) then
      match rtTry (List.drop 3 (c :: cs)) with
      | some g => some g
      | none => rtMatch cs
    else rtMatch cs

/-- `usageMap[k] = (usageMap[k] || 0) + v` on a JS object embedded as an
association list: update in place, or append a fresh key at the end. -/
def addUsage : List (List Char × Int) → List Char → Int → List (List Char × Int)
  | [], k, v => [(k, v)]
  | (k0, v0) :: rest, k, v =>
    if k0 = k then (k0, v0 + v) :: rest else (k0, v0) :: addUsage rest k v

/-- Property-read `m[k]` on the embedded JS object. -/
def findVal : List (List Char × Int) → List Char → Option Int
  | [], _ => none
  | (k0, v) :: rest, k => if k0 = k then some v else findVal rest k

/-- Loop body of the usage aggregation (server/index.js lines 402-413):
skip non-positive minutes, skip ids without a `P`-pattern, else add. -/
def usageStep (m : List (List Char × Int)) (t : UTool) : List (List Char × Int) :=
  if 0 < effMinutes t then
    match pMatch t.id with
    | some k => addUsage m k (effMinutes t)
    | none => m
  else m

/-- The `usageMap` built from the processed tools (server/index.js lines
400-413). -/
def usageMap (tools : List UTool) : List (List Char × Int) :=
  tools.foldl usageStep []

/-- `toolsWithUsage` (server/index.js lines 416-432): for each matrix tool,
prefer `codePrefix`, else the `RT-` regex capture, else the empty key, and
read `usageMap[key] || 0`. -/
def toolsWithUsage (um : List (List Char × Int)) (ts : List MTool) : List (MTool × Int) :=
  ts.map (fun t =>
    (t, (findVal um
          (if t.codePrefix = [] then
            match rtMatch t.toolId with
            | some g => g
            | none => []
          else t.codePrefix)).getD 0))

/-- The key `toolsWithUsage` looks up for a tool, as a named function. -/
def mergeKey (t : MTool) : List Char :=
  if t.codePrefix = [] then
    match rtMatch t.toolId with
    | some g => g
    | none => []
  else t.codePrefix

/-- The total of the minutes that the well-formed usage records with
extracted code `k` contribute. -/
def contrib (k : List Char) (l : List UTool) : Int :=
  ((l.filter (fun t => decide (0 < effMinutes t ∧ pMatch t.id = some k))).map effMinutes).sum

/-- Whether some record of `l` contributes to key `k`. -/
def hitsKey (k : List Char) (l : List UTool) : Bool :=
  l.any (fun t => decide (0 < effMinutes t ∧ pMatch t.id = some k))

/-- The two-valued tool state of the specification. -/
inductive ToolState
  | FREE
  | IN_USE
deriving DecidableEq

/-- Modelled from the spec: the `Tool` class of `src/Tool.js` is required by
the repository's tests (`src/__tests__`, lines 858-875 of the combined
source) but its file is not under src/; per §3 and §4.4 of the design, a
Tool record carries a matrix code, an optional diameter, a two-valued
state, an append-only usage history and a project list. -/
structure ToolRec where
  matrixCode : List Char
  diameter : Option ℚ
  toolState : ToolState
  usageHistory : List (List Char × Int)
  projectList : List (List Char)
deriving DecidableEq

/-- Modelled from the spec: the Tool constructor — FREE is the only initial
state, the usage history and project list start empty. -/
def ToolRec.new (mc : List Char) (dia : Option ℚ) : ToolRec :=
  ⟨mc, dia, ToolState.FREE, [], []⟩

/-- Modelled from the spec: §4.4 — the transition function is total over
{current state, observed claim}: a claimed tool becomes IN_USE, an
unclaimed one becomes (or stays) FREE. -/
def ToolState.step (_s : ToolState) (claimed : Bool) : ToolState :=
  if claimed then ToolState.IN_USE else ToolState.FREE

/-- Folding a sequence of observed claims over a state. -/
def runClaims (s : ToolState) (events : List Bool) : ToolState :=
  events.foldl ToolState.step s

/-- The concrete usage record of the specification's scenario. -/
def uRec8201 : UTool := ⟨( "FRA-P8201-S15.2R0_H100W16L100X").toList, some 45, none⟩

/-- A matrix tool whose definitions entry stored the family code 8201. -/
def mtPre8201 : MTool :=
  ⟨( "RT-8201300").toList, 0, 0, Cat.MFC, Cat.MFC, ( "8201").toList, 0, 0, 3, none⟩

/-- The same matrix tool with no stored code; the merge must re-derive its
key from the matrix code. -/
def mtNoPre8201 : MTool :=
  ⟨( "RT-8201300").toList, 0, 0, Cat.MFC, Cat.MFC, [], 0, 0, 3, none⟩

/-- The inventory row of the specification's concrete scenario. -/
def row8400 : InvRow := ⟨( "RT-8400300").toList, 10⟩

/-- An inventory row whose code matches no matrix pattern. -/
def row9999 : InvRow := ⟨( "RT-9999999").toList, 1⟩

/-- A definitions table holding a variant-free entry for RT-8400300. -/
def defs8400 : List (List Char × DefEntry) :=
  [(( "RT-8400300").toList, ⟨some (57 / 10), some 100, some (( "8400").toList)⟩)]

/-- A usage record whose id carries no P-pattern: it must be skipped. -/
def uBad : UTool := ⟨( "NOPE").toList, some 5, none⟩

/-- A second well-formed usage record, for permutation witnesses. -/
def uRec8400 : UTool := ⟨( "FRA-P8400300-X").toList, some 30, none⟩

end ToolManager

namespace ToolManager

theorem listIsPre_append (p r : List Char) : listIsPre p (p ++ r) = true := by
  induction p with
  | nil => rfl
  | cons c cs ih => simp [listIsPre, ih]

theorem replaceFirst_append (c : Char) (cs r : List Char) :
    replaceFirst (c :: cs) ((c :: cs) ++ r) = r := by
  have h1 : listIsPre (c :: cs) (c :: (cs ++ r)) = true := listIsPre_append (c :: cs) r
  show replaceFirst (c :: cs) (c :: (cs ++ r)) = r
  rw [replaceFirst, if_pos h1]
  show List.drop (c :: cs).length ((c :: cs) ++ r) = r
  exact List.drop_left _ _

theorem takeWhile_append_pre (p : Char → Bool) (l1 l2 : List Char)
    (h : ∀ c ∈ l1, p c = true) :
    (l1 ++ l2).takeWhile p = l1 ++ l2.takeWhile p := by
  induction l1 with
  | nil => simp
  | cons c cs ih =>
    have hc : p c = true := h c (by simp)
    have ih2 := ih (fun d hd => h d (by simp [hd]))
    simp [List.takeWhile_cons, hc, ih2]

theorem digit_ne_underscore {c : Char} (h : c.isDigit = true) : (c != '_') = true := by
  have hne : c ≠ '_' := by
    intro he
    subst he
    exact absurd h (by decide)
  simpa [bne_iff_ne] using hne

theorem digit_ne_X {c : Char} (h : c.isDigit = true) : c ≠ 'X' := by
  intro he
  subst he
  exact absurd h (by decide)

theorem familyCode_wellformed (x ds suf : List Char)
    (hx : x = [] ∨ x = ['X'])
    (hne : ds ≠ []) (hds : ∀ c ∈ ds, c.isDigit = true)
    (hsuf : suf = [] ∨ ∃ ts, suf = '_' :: ts) :
    familyCode (rtTag ++ (x ++ (ds ++ suf))) =
      if 6 ≤ ds.length then ds.take (ds.length - 3) else ds.take 4 := by
  have h1 : replaceFirst rtTag (rtTag ++ (x ++ (ds ++ suf))) = x ++ (ds ++ suf) :=
    replaceFirst_append 'R' ['T', '-'] _
  have hsuf' : suf.takeWhile (fun c => c != '_') = [] := by
    rcases hsuf with h | ⟨ts, h⟩ <;> subst h <;> simp
  have h2 : baseOf (x ++ (ds ++ suf)) = x ++ ds := by
    unfold baseOf
    rw [takeWhile_append_pre _ _ _ (by rcases hx with h | h <;> subst h <;> simp),
      takeWhile_append_pre _ _ _ (fun c hc => digit_ne_underscore (hds c hc)), hsuf',
      List.append_nil]
  have h3 : stripLeadX (x ++ ds) = ds := by
    rcases hx with h | h
    · subst h
      cases ds with
      | nil => exact absurd rfl hne
      | cons d ds2 =>
        have : d ≠ 'X' := digit_ne_X (hds d (by simp))
        simp [stripLeadX, this]
    · subst h
      simp [stripLeadX]
  simp only [familyCode, h1, h2, h3]

/-- Claim C1: family-code extraction from a matrix code — for every
well-formed tool code `RT-` ++ optional `X` ++ digits ++ optional `_`
variant suffix, the family code is all digits but the last 3 when at least
6 digits remain, else the first 4; in particular RT-8400300 ↦ 8400 and
RT-X7620300 ↦ 7620. -/
theorem familyCode_extraction_rule :
    (∀ x ds suf : List Char, (x = [] ∨ x = ['X']) → ds ≠ [] →
      (∀ c ∈ ds, c.isDigit = true) → (suf = [] ∨ ∃ ts, suf = '_' :: ts) →
      familyCode (rtTag ++ (x ++ (ds ++ suf))) =
        if 6 ≤ ds.length then ds.take (ds.length - 3) else ds.take 4)
    ∧ familyCode (( "RT-8400300").toList) = ( "8400").toList
    ∧ familyCode (( "RT-X7620300").toList) = ( "7620").toList :=
  ⟨fun x ds suf hx hne hds hsuf => familyCode_wellformed x ds suf hx hne hds hsuf,
    by decide, by decide⟩

/-- Witness for C1 at the concrete code RT-8400300 (digits 8400300, no X,
no variant suffix). -/
theorem familyCode_extraction_rule_witness :
    familyCode (rtTag ++ ([] ++ (( "8400300").toList ++ []))) =
      if 6 ≤ (( "8400300").toList).length then
        (( "8400300").toList).take ((( "8400300").toList).length - 3)
      else (( "8400300").toList).take 4 :=
  familyCode_extraction_rule.1 [] (( "8400300").toList) [] (Or.inl rfl) (by decide)
    (by decide) (Or.inl rfl)

end ToolManager

namespace ToolManager

/-- Claim C5: category classification is total and first-match-wins —
every tool code maps to exactly one of the five categories, the if-chain
agrees with the ordered substring table, and unmatched codes fall to
OTHER. -/
theorem category_total_first_match (code : List Char) :
    categoryOf code = firstMatch code catTable ∧
    (categoryOf code = Cat.ECUT ∨ categoryOf code = Cat.MFC ∨ categoryOf code = Cat.XF ∨
      categoryOf code = Cat.XFEED ∨ categoryOf code = Cat.OTHER) := by
  constructor
  · by_cases h1 : containsSub code ['8', '4', '0', '0'] = true
    · simp [categoryOf, firstMatch, catTable, h1]
    · by_cases h2 : containsSub code ['8', '4', '1', '0'] = true
      · simp [categoryOf, firstMatch, catTable, h1, h2]
      · by_cases h3 : containsSub code ['8', '4', '2', '0'] = true
        · simp [categoryOf, firstMatch, catTable, h1, h2, h3]
        · by_cases h4 : containsSub code ['8', '2', '0', '1'] = true
          · simp [categoryOf, firstMatch, catTable, h1, h2, h3, h4]
          · by_cases h5 : containsSub code ['8', '2', '1', '1'] = true
            · simp [categoryOf, firstMatch, catTable, h1, h2, h3, h4, h5]
            · by_cases h6 : containsSub code ['8', '2', '2', '1'] = true
              · simp [categoryOf, firstMatch, catTable, h1, h2, h3, h4, h5, h6]
              · by_cases h7 : containsSub code ['1', '5', '2', '5'] = true
                · simp [categoryOf, firstMatch, catTable, h1, h2, h3, h4, h5, h6, h7]
                · by_cases h8 : containsSub code ['8', '5', '2', '1'] = true
                  · simp [categoryOf, firstMatch, catTable, h1, h2, h3, h4, h5, h6, h7, h8]
                  · by_cases h9 : containsSub code ['7', '6', '2', '0'] = true
                    · simp [categoryOf, firstMatch, catTable, h1, h2, h3, h4, h5, h6, h7, h8,
                        h9]
                    · by_cases h10 : containsSub code ['7', '6', '2', '4'] = true
                      · simp [categoryOf, firstMatch, catTable, h1, h2, h3, h4, h5, h6, h7,
                          h8, h9, h10]
                      · simp [categoryOf, firstMatch, catTable, h1, h2, h3, h4, h5, h6, h7,
                          h8, h9, h10]
  · cases h : categoryOf code <;> simp

/-- Claim C6: every dashboard tool built from an inventory row satisfies
warningThreshold = max(3, floor(inPool * 0.3)); the concrete row with
quantity 10 yields 3. -/
theorem warningThreshold_rule :
    (∀ (defs : List (List Char × DefEntry)) (pats : List (List Char)) (inv : List InvRow)
      (t : MTool), t ∈ matrixTools defs pats inv →
        t.warningThreshold = max 3 (Int.floor ((t.inPool : ℚ) * (3 / 10))))
    ∧ (matrixTools [] defaultMatrixCodePatterns [row8400]).map MTool.warningThreshold
        = [3] := by
  constructor
  · intro defs pats inv t ht
    simp only [matrixTools, List.mem_map] at ht
    obtain ⟨r, _, rfl⟩ := ht
    rfl
  · have h : (matrixTools [] defaultMatrixCodePatterns [row8400]).map MTool.warningThreshold
        = [warnThresh 10] := rfl
    rw [h]
    norm_num [warnThresh]

/-- Witness for C6: the tool built from the RT-8400300 row is a member of
the loaded matrix set and satisfies the threshold formula. -/
theorem warningThreshold_rule_witness :
    (toMatrixTool [] row8400).warningThreshold =
      max 3 (Int.floor (((toMatrixTool [] row8400).inPool : ℚ) * (3 / 10))) :=
  warningThreshold_rule.1 [] defaultMatrixCodePatterns [row8400] (toMatrixTool [] row8400)
    (by rw [show matrixTools [] defaultMatrixCodePatterns [row8400]
          = [toMatrixTool [] row8400] from rfl]
        exact List.mem_singleton.mpr rfl)

/-- Claim C7: normalization is total and never throws — absent and empty
inputs produce the neutral outputs: tool data (0, 0, ''), family code '',
category OTHER, and no image URL. -/
theorem normalize_total_neutral :
    (∀ defs : List (List Char × DefEntry),
      getToolData defs none = ⟨0, 0, []⟩ ∧ getToolData defs (some []) = ⟨0, 0, []⟩)
    ∧ familyCode [] = [] ∧ categoryOf [] = Cat.OTHER
    ∧ getImageUrl none = none ∧ getImageUrl (some []) = none :=
  ⟨fun _ => ⟨rfl, rfl⟩, by decide, by decide, rfl, rfl⟩

/-- Claim C10: `getToolData` tries the exact code first, then the code
truncated at the first underscore, and yields the neutral record when both
lookups fail. -/
theorem toolData_lookup_precedence (defs : List (List Char × DefEntry)) (code : List Char)
    (hne : code ≠ []) :
    (∀ e, lookupDef defs code = some e → getToolData defs (some code) = coalesceEntry e)
    ∧ (lookupDef defs code = none →
        ∀ e, lookupDef defs (baseOf code) = some e →
          getToolData defs (some code) = coalesceEntry e)
    ∧ (lookupDef defs code = none → lookupDef defs (baseOf code) = none →
        getToolData defs (some code) = ⟨0, 0, []⟩) := by
  refine ⟨?_, ?_, ?_⟩
  · intro e he
    simp [getToolData, hne, he]
  · intro h0 e he
    simp [getToolData, hne, h0, he]
  · intro h0 h1
    simp [getToolData, hne, h0, h1]

/-- Witness for C10: the variant code RT-8400300_1 misses the exact lookup
and resolves through its base code RT-8400300. -/
theorem toolData_lookup_precedence_witness :
    getToolData defs8400 (some (( "RT-8400300_1").toList)) =
      coalesceEntry ⟨some (57 / 10), some 100, some (( "8400").toList)⟩ :=
  (toolData_lookup_precedence defs8400 (( "RT-8400300_1").toList) (by decide)).2.1
    rfl _ rfl

/-- Claim C9: a newly constructed Tool starts FREE with an empty usage
history, FREE and IN_USE are the only states, and a tool that never
observes a claiming usage event stays FREE. -/
theorem tool_initial_state_free :
    (∀ (mc : List Char) (dia : Option ℚ),
      (ToolRec.new mc dia).toolState = ToolState.FREE ∧
        (ToolRec.new mc dia).usageHistory = [])
    ∧ (∀ s : ToolState, s = ToolState.FREE ∨ s = ToolState.IN_USE)
    ∧ (∀ evs : List Bool, (∀ b ∈ evs, b = false) →
        runClaims ToolState.FREE evs = ToolState.FREE) := by
  refine ⟨fun mc dia => ⟨rfl, rfl⟩, fun s => by cases s <;> simp, ?_⟩
  intro evs h
  induction evs with
  | nil => rfl
  | cons b bs ih =>
    have hb : b = false := h b (by simp)
    subst hb
    show runClaims (ToolState.step ToolState.FREE false) bs = ToolState.FREE
    exact ih (fun d hd => h d (by simp [hd]))

/-- Witness for C9: two cycles with no claim leave the state FREE. -/
theorem tool_initial_state_free_witness :
    runClaims ToolState.FREE [false, false] = ToolState.FREE :=
  tool_initial_state_free.2.2 [false, false] (by decide)

/-- Claim C8 counterexample: a snapshot containing only RT-9999999 loads to
an empty matrix view, so the no-filter query does not return every snapshot
code. -/
theorem roundtrip_drops_nonmatrix_cex :
    ([row9999].map InvRow.toolCode = [( "RT-9999999").toList])
    ∧ (matrixTools [] defaultMatrixCodePatterns [row9999]).map MTool.toolId = []
    ∧ (([] : List (List Char)) ≠ [( "RT-9999999").toList]) :=
  ⟨by decide, rfl, by decide⟩

/-- Claim C8 (amended): loading a snapshot then querying returns exactly
the codes of the rows containing a matrix pattern, in load order. -/
theorem roundtrip_matrix_filter :
    (∀ (defs : List (List Char × DefEntry)) (pats : List (List Char)) (inv : List InvRow),
      (matrixTools defs pats inv).map MTool.toolId =
        (inv.filter (fun r => pats.any (fun p => containsSub r.toolCode p))).map
          InvRow.toolCode)
    ∧ (matrixTools [] defaultMatrixCodePatterns [row8400]).map MTool.toolId
        = [( "RT-8400300").toList] := by
  constructor
  · intro defs pats inv
    simp only [matrixTools, List.map_map]
    exact List.map_congr_left (fun r _ => rfl)
  · rfl

end ToolManager

namespace ToolManager

theorem findVal_addUsage (m : List (List Char × Int)) (k k2 : List Char) (v : Int) :
    findVal (addUsage m k v) k2 =
      if k2 = k then some ((findVal m k).getD 0 + v) else findVal m k2 := by
  induction m with
  | nil =>
    by_cases h : k2 = k
    · subst h
      simp [addUsage, findVal]
    · simp [addUsage, findVal, h, Ne.symm h]
  | cons p rest ih =>
    obtain ⟨k0, v0⟩ := p
    by_cases h0 : k0 = k
    · subst h0
      by_cases h2 : k0 = k2
      · subst h2
        simp [addUsage, findVal]
      · simp [addUsage, findVal, h2, Ne.symm h2]
    · by_cases h2 : k0 = k2
      · subst h2
        simp [addUsage, findVal, h0, Ne.symm h0]
      · simp [addUsage, findVal, h0, h2, ih]

theorem contrib_nil (k : List Char) : contrib k [] = 0 := rfl

theorem hitsKey_nil (k : List Char) : hitsKey k [] = false := rfl

theorem contrib_cons (k : List Char) (t : UTool) (l : List UTool) :
    contrib k (t :: l) =
      if 0 < effMinutes t ∧ pMatch t.id = some k then effMinutes t + contrib k l
      else contrib k l := by
  by_cases h : 0 < effMinutes t ∧ pMatch t.id = some k <;>
    simp [contrib, List.filter_cons, h]

theorem hitsKey_cons (k : List Char) (t : UTool) (l : List UTool) :
    hitsKey k (t :: l) =
      (decide (0 < effMinutes t ∧ pMatch t.id = some k) || hitsKey k l) := by
  simp [hitsKey]

theorem contrib_of_not_hits (k : List Char) (l : List UTool) (h : hitsKey k l = false) :
    contrib k l = 0 := by
  induction l with
  | nil => rfl
  | cons t l ih =>
    rw [hitsKey_cons] at h
    simp only [Bool.or_eq_false_iff, decide_eq_false_iff_not] at h
    rw [contrib_cons, if_neg h.1]
    exact ih h.2

theorem findVal_foldl_usageStep (l : List UTool) (m : List (List Char × Int))
    (k : List Char) :
    findVal (List.foldl usageStep m l) k =
      if hitsKey k l then some ((findVal m k).getD 0 + contrib k l) else findVal m k := by
  induction l generalizing m with
  | nil => simp [hitsKey_nil, contrib_nil]
  | cons t l ih =>
    rw [List.foldl_cons, ih, hitsKey_cons, contrib_cons]
    by_cases hm : 0 < effMinutes t
    · cases hp : pMatch t.id with
      | none =>
        have hstep : usageStep m t = m := by simp [usageStep, hm, hp]
        simp [hstep, hm, hp]
      | some k0 =>
        have hstep : usageStep m t = addUsage m k0 (effMinutes t) := by
          simp [usageStep, hm, hp]
        by_cases hk : k0 = k
        · subst hk
          rw [hstep]
          by_cases hh : hitsKey k0 l = true
          · simp [hh, hm, hp, findVal_addUsage, Int.add_assoc]
          · have hh2 : hitsKey k0 l = false := by simpa using hh
            have hc : contrib k0 l = 0 := contrib_of_not_hits _ _ hh2
            simp [hh2, hc, hm, hp, findVal_addUsage]
        · rw [hstep]
          have hne : ¬ k = k0 := fun h => hk h.symm
          simp [hm, hp, hk, hne, findVal_addUsage]
    · have hstep : usageStep m t = m := by simp [usageStep, hm]
      simp [hstep, hm]

theorem findVal_usageMap (l : List UTool) (k : List Char) :
    findVal (usageMap l) k = if hitsKey k l then some (contrib k l) else none := by
  have h := findVal_foldl_usageStep l [] k
  simpa [usageMap, findVal] using h

end ToolManager

namespace ToolManager

theorem mem_keys_addUsage (m : List (List Char × Int)) (k v : _) (x : List Char) :
    x ∈ (addUsage m k v).map Prod.fst ↔ x ∈ m.map Prod.fst ∨ x = k := by
  induction m with
  | nil => simp [addUsage]
  | cons p rest ih =>
    obtain ⟨k0, v0⟩ := p
    by_cases h0 : k0 = k
    · subst h0
      simp [addUsage]
      tauto
    · simp [addUsage, h0, ih]
      tauto

theorem nodup_keys_addUsage (m : List (List Char × Int)) (k : List Char) (v : Int)
    (h : (m.map Prod.fst).Nodup) : ((addUsage m k v).map Prod.fst).Nodup := by
  induction m with
  | nil => simp [addUsage]
  | cons p rest ih =>
    obtain ⟨k0, v0⟩ := p
    simp only [List.map_cons, List.nodup_cons] at h
    by_cases h0 : k0 = k
    · subst h0
      have ha : addUsage ((k0, v0) :: rest) k0 v = (k0, v0 + v) :: rest := by
        simp [addUsage]
      rw [ha, List.map_cons, List.nodup_cons]
      exact ⟨h.1, h.2⟩
    · simp only [addUsage, if_neg h0, List.map_cons, List.nodup_cons]
      refine ⟨?_, ih h.2⟩
      rw [mem_keys_addUsage]
      rintro (hmem | rfl)
      · exact h.1 hmem
      · exact h0 rfl

theorem nodup_keys_usageStep (m : List (List Char × Int)) (t : UTool)
    (h : (m.map Prod.fst).Nodup) : ((usageStep m t).map Prod.fst).Nodup := by
  by_cases hm : 0 < effMinutes t
  · cases hp : pMatch t.id with
    | none =>
      have hstep : usageStep m t = m := by simp [usageStep, hm, hp]
      rwa [hstep]
    | some k0 =>
      have hstep : usageStep m t = addUsage m k0 (effMinutes t) := by
        simp [usageStep, hm, hp]
      rw [hstep]
      exact nodup_keys_addUsage _ _ _ h
  · have hstep : usageStep m t = m := by simp [usageStep, hm]
    rwa [hstep]

theorem nodup_keys_foldl (l : List UTool) (m : List (List Char × Int))
    (h : (m.map Prod.fst).Nodup) :
    ((List.foldl usageStep m l).map Prod.fst).Nodup := by
  induction l generalizing m with
  | nil => simpa
  | cons t l ih =>
    rw [List.foldl_cons]
    exact ih _ (nodup_keys_usageStep m t h)

theorem pos_addUsage (m : List (List Char × Int)) (k : List Char) (v : Int)
    (hm : ∀ p ∈ m, 0 < p.2) (hv : 0 < v) : ∀ p ∈ addUsage m k v, 0 < p.2 := by
  induction m with
  | nil =>
    intro p hp
    simp only [addUsage, List.mem_singleton] at hp
    subst hp
    exact hv
  | cons q rest ih =>
    obtain ⟨k0, v0⟩ := q
    intro p hp
    by_cases h0 : k0 = k
    · subst h0
      have ha : addUsage ((k0, v0) :: rest) k0 v = (k0, v0 + v) :: rest := by
        simp [addUsage]
      rw [ha] at hp
      rcases List.mem_cons.mp hp with rfl | hp
      · have h1 : (0 : Int) < v0 := by simpa using hm (k0, v0) (by simp)
        have : (0 : Int) < v0 + v := by omega
        simpa using this
      · exact hm p (by simp [hp])
    · simp only [addUsage, if_neg h0, List.mem_cons] at hp
      rcases hp with rfl | hp
      · simpa using hm (k0, v0) (by simp)
      · exact ih (fun q hq => hm q (by simp [hq])) p hp

theorem pos_usageStep (m : List (List Char × Int)) (t : UTool)
    (hm : ∀ p ∈ m, 0 < p.2) : ∀ p ∈ usageStep m t, 0 < p.2 := by
  by_cases hp0 : 0 < effMinutes t
  · cases hp : pMatch t.id with
    | none =>
      have hstep : usageStep m t = m := by simp [usageStep, hp0, hp]
      rw [hstep]
      exact hm
    | some k0 =>
      have hstep : usageStep m t = addUsage m k0 (effMinutes t) := by
        simp [usageStep, hp0, hp]
      rw [hstep]
      exact pos_addUsage _ _ _ hm hp0
  · have hstep : usageStep m t = m := by simp [usageStep, hp0]
    rw [hstep]
    exact hm

theorem pos_foldl (l : List UTool) (m : List (List Char × Int))
    (hm : ∀ p ∈ m, 0 < p.2) : ∀ p ∈ List.foldl usageStep m l, 0 < p.2 := by
  induction l generalizing m with
  | nil => exact hm
  | cons t l ih =>
    rw [List.foldl_cons]
    exact ih _ (pos_usageStep m t hm)

theorem any_perm {α : Type} {p : α → Bool} {l l2 : List α} (h : l.Perm l2) :
    l.any p = l2.any p := by
  by_cases ha : l.any p = true
  · rw [ha]
    symm
    rw [List.any_eq_true] at ha ⊢
    obtain ⟨x, hx, hpx⟩ := ha
    exact ⟨x, h.mem_iff.mp hx, hpx⟩
  · have ha2 : l.any p = false := by simpa using ha
    rw [ha2]
    symm
    rw [List.any_eq_false] at ha2 ⊢
    intro x hx
    exact ha2 x (h.mem_iff.mpr hx)

/-- Claim C3: usage aggregation skips exactly the malformed records — a
record with no P-pattern in its id or non-positive minutes leaves the map
unchanged wherever it occurs, and the value stored under each key is the
sum of the minutes of the well-formed records extracting that key. -/
theorem aggregate_skips_malformed :
    (∀ (xs ys : List UTool) (t : UTool), effMinutes t ≤ 0 ∨ pMatch t.id = none →
      usageMap (xs ++ t :: ys) = usageMap (xs ++ ys))
    ∧ (∀ (l : List UTool) (k : List Char),
        findVal (usageMap l) k = if hitsKey k l then some (contrib k l) else none) := by
  constructor
  · intro xs ys t ht
    have hstep : ∀ m, usageStep m t = m := by
      intro m
      rcases ht with h | h
      · simp [usageStep, not_lt.mpr h]
      · by_cases hm : 0 < effMinutes t
        · simp [usageStep, hm, h]
        · simp [usageStep, hm]
    unfold usageMap
    rw [List.foldl_append, List.foldl_append, List.foldl_cons, hstep]
  · exact findVal_usageMap

/-- Witness for C3: the record with id NOPE is skipped. -/
theorem aggregate_skips_malformed_witness :
    usageMap ([] ++ uBad :: []) = usageMap ([] ++ []) :=
  aggregate_skips_malformed.1 [] [] uBad (Or.inr (by decide))

/-- Claim C4: usage aggregation is order-independent — permuting the
records leaves the mapping extensionally unchanged, the keys are unique,
and every stored total is non-negative. -/
theorem aggregate_perm_invariant (l l2 : List UTool) (h : l.Perm l2) :
    (∀ k, findVal (usageMap l) k = findVal (usageMap l2) k)
    ∧ ((usageMap l).map Prod.fst).Nodup
    ∧ (∀ p ∈ usageMap l, 0 ≤ p.2) := by
  refine ⟨?_, nodup_keys_foldl l [] (by simp),
    fun p hp => le_of_lt (pos_foldl l [] (by simp) p hp)⟩
  intro k
  rw [findVal_usageMap, findVal_usageMap]
  have h1 : hitsKey k l = hitsKey k l2 := any_perm h
  have h2 : contrib k l = contrib k l2 := by
    unfold contrib
    exact ((h.filter _).map _).sum_eq
  rw [h1, h2]

/-- Witness for C4: swapping two concrete records leaves the 8201 total
unchanged. -/
theorem aggregate_perm_invariant_witness :
    findVal (usageMap [uRec8201, uRec8400]) (( "8201").toList)
      = findVal (usageMap [uRec8400, uRec8201]) (( "8201").toList) :=
  (aggregate_perm_invariant [uRec8201, uRec8400] [uRec8400, uRec8201]
    (List.Perm.swap uRec8400 uRec8201 [])).1 (( "8201").toList)

/-- Claim C2 counterexample: the usage record FRA-P8201-… aggregates 45
minutes under the family code 8201, the registry tool RT-8201300 derives
family code 8201, yet the merge gives that tool 0 minutes when no
codePrefix is stored (the fallback regex extracts 82013, not the family
code). -/
theorem mergeUsage_familyCode_cex :
    familyCode (( "RT-8201300").toList) = ( "8201").toList
    ∧ usageMap [uRec8201] = [(( "8201").toList, 45)]
    ∧ toolsWithUsage (usageMap [uRec8201]) [mtNoPre8201] = [(mtNoPre8201, 0)]
    ∧ ((0 : Int) = 45 → False) :=
  ⟨by decide, by decide, by decide, by decide⟩

/-- Claim C2 (amended): the merge sets each tool's usage minutes to the
aggregated total under its merge key — the stored codePrefix when
non-empty, else the 4-5 digit capture after the first RT-[X]? in the
matrix code (5 digits preferred), else the empty key — and to 0 when that
key is absent; a tool whose stored codePrefix is 8201 does receive the 45
minutes of the concrete scenario. -/
theorem mergeUsage_key_characterization :
    (∀ (urs : List UTool) (ts : List MTool),
      toolsWithUsage (usageMap urs) ts = ts.map (fun t => (t, contrib (mergeKey t) urs)))
    ∧ toolsWithUsage (usageMap [uRec8201]) [mtPre8201] = [(mtPre8201, 45)] := by
  constructor
  · intro urs ts
    unfold toolsWithUsage
    apply List.map_congr_left
    intro t _
    have hk : (if t.codePrefix = [] then
        match rtMatch t.toolId with
        | some g => g
        | none => []
      else t.codePrefix) = mergeKey t := rfl
    rw [hk, findVal_usageMap]
    by_cases hh : hitsKey (mergeKey t) urs = true
    · simp [hh]
    · have hh2 : hitsKey (mergeKey t) urs = false := by simpa using hh
      rw [hh2]
      simp [contrib_of_not_hits _ _ hh2]
  · decide

end ToolManager
